import Mathlib

/-!  A shallow embedding of the cfgo configuration library: the layered
environment-file loader, the store with its read-through cache, the typed
getters built on Go's strconv parsing routines, and the reload/source
machinery, together with theorems checking the specification's claims.
All maps are modelled extensionally (`String → Option GoVal`), which makes
Go's `for … range` merges order-independent by construction. -/

/-- Values of Go type `any` as stored in the configuration maps: `vnil` is Go's
`nil` (also the absent indicator returned by `Get`), `vstr` a string, and
`other` any other non-nil Go value, carried together with the text that
`fmt.Sprintf` with the `v` verb prints for it. -/
inductive GoVal where
  | vnil : GoVal
  | vstr (s : String) : GoVal
  | other (txt : String) : GoVal
  deriving DecidableEq

/-- A Go `map[string]any`, modelled extensionally as a function. -/
abbrev GoMap := String → Option GoVal

def GoMap.empty : GoMap := fun _ => none

def GoMap.insert (m : GoMap) (k : String) (v : GoVal) : GoMap :=
  fun q => if q = k then some v else m q

def GoMap.erase (m : GoMap) (k : String) : GoMap :=
  fun q => if q = k then none else m q

/-- Merging map `src` over `m`: the effect of Go's
`for k, v := range src { m[k] = v }` (iteration order is irrelevant to the
result, so the extensional merge is exact). -/
def GoMap.merge (m src : GoMap) : GoMap :=
  fun q =>
    match src q with
    | some v => some v
    | none => m q

/-- Go `unicode.IsSpace`: the Unicode white-space code points. -/
def isGoSpace (c : Char) : Bool :=
  let n := c.toNat
  (9 ≤ n && n ≤ 13) || n == 32 || n == 0x85 || n == 0xA0 || n == 0x1680 ||
  (0x2000 ≤ n && n ≤ 0x200A) || n == 0x2028 || n == 0x2029 || n == 0x202F ||
  n == 0x205F || n == 0x3000

/-- Membership in the cutset of the `strings.Trim(value, quotes)` call in
`loadEnvFile`: a double quote (code 34) or a single quote (code 39). -/
def isQuoteC (c : Char) : Bool := c.toNat == 34 || c.toNat == 39

/-- Strip every leading and every trailing character satisfying `p`, as Go's
`strings.Trim`-family functions do for a character-set cutset. -/
def trimBy (p : Char → Bool) (l : List Char) : List Char :=
  ((l.dropWhile p).reverse.dropWhile p).reverse

/-- Go `strings.TrimSpace`. -/
def goTrimSpace (l : List Char) : List Char := trimBy isGoSpace l

/-- Go `strings.Trim(s, cutset)` for the quote cutset used on values in
`loadEnvFile`. -/
def goTrimQuotes (l : List Char) : List Char := trimBy isQuoteC l

/-- Go `strings.SplitN(s, "=", 2)` restricted to the shape the loader uses:
the text before the first `=` and the text after it, or `none` when there is
no `=` at all (Go then returns a single part and the caller skips the line). -/
def splitKV : List Char → Option (List Char × List Char)
  | [] => none
  | c :: rest =>
    if c == '=' then some ([], rest)
    else
      match splitKV rest with
      | some (k, v) => some (c :: k, v)
      | none => none

/-- One iteration of the scanner loop in `loadEnvFile`: trim the line, skip
blank lines and `#` comments (35 is the code of `#`), split at the first `=`,
trim the key, trim the value and strip quote characters from its ends;
`none` when the line is skipped. -/
def parseLine (line : String) : Option (String × String) :=
  match goTrimSpace line.data with
  | [] => none
  | c :: rest =>
    if c.toNat == 35 then none
    else
      match splitKV (c :: rest) with
      | some (k, v) => some (⟨goTrimSpace k⟩, ⟨goTrimQuotes (goTrimSpace v)⟩)
      | none => none

/-- The ambient process state read by the loader: the readable files (by name,
as lists of lines), the `os.Environ()` snapshot, and `os.Getenv`. -/
structure Sys where
  files : String → Option (List String)
  environ : List String
  getenv : String → String

/-- A loop inserting one optional parsed entry per input item into `data`:
the common shape of the scanner loop of `loadEnvFile` and of the
`os.Environ()` loop of `loadSystemEnv`. -/
def insertFold (f : String → Option (String × GoVal)) (data : GoMap) : List String → GoMap
  | [] => data
  | x :: rest =>
    match f x with
    | some (k, v) => insertFold f (data.insert k v) rest
    | none => insertFold f data rest

/-- The entry contributed by one line of an env file. -/
def lineEntry (line : String) : Option (String × GoVal) :=
  (parseLine line).map fun kv => (kv.1, GoVal.vstr kv.2)

/-- The scanner loop of `loadEnvFile`: fold the parsed lines into `data`. -/
def loadLines (data : GoMap) (lines : List String) : GoMap :=
  insertFold lineEntry data lines

/-- `loadEnvFile`: a file that cannot be opened is silently skipped. -/
def loadEnvFile (sys : Sys) (data : GoMap) (filename : String) : GoMap :=
  match sys.files filename with
  | none => data
  | some lines => loadLines data lines

/-- The active environment name: `APP_ENV`, defaulting to `"dev"` when unset
or empty. -/
def appEnvName (sys : Sys) : String :=
  if sys.getenv "APP_ENV" = "" then "dev" else sys.getenv "APP_ENV"

/-- `loadEnvFiles`: `.env`, then `.local.env`, then `.<APP_ENV>.env`. -/
def loadEnvFiles (sys : Sys) (data : GoMap) : GoMap :=
  loadEnvFile sys
    (loadEnvFile sys (loadEnvFile sys data ".env") ".local.env")
    ("." ++ appEnvName sys ++ ".env")

/-- The entry contributed by one `os.Environ()` element: split at the first
`=`, verbatim (no trimming, no quote handling). -/
def envEntry (entry : String) : Option (String × GoVal) :=
  (splitKV entry.data).map fun kv => ((⟨kv.1⟩ : String), GoVal.vstr ⟨kv.2⟩)

/-- `loadSystemEnv`: fold every `NAME=value` entry of `os.Environ()` into
`data`; entries without `=` are skipped. -/
def loadSystemEnv (sys : Sys) (data : GoMap) : GoMap :=
  insertFold envEntry data sys.environ

def decValueAux : List Char → Nat → Option Nat
  | [], acc => some acc
  | c :: rest, acc =>
    if c.isDigit then decValueAux rest (acc * 10 + (c.toNat - 48)) else none

/-- The digit run of Go `strconv.ParseUint(s, 10, 64)`: `none` on an empty
string or on any non-digit character, otherwise the numeral's exact value.
(The Go original saturates at `MaxUint64` with a range error; saturation does
not change what `ParseInt` returns, because both the exact and the saturated
value fall on the same side of the `2^63` cutoffs used in `goParseInt64`.) -/
def decValue : List Char → Option Nat
  | [] => none
  | c :: rest => decValueAux (c :: rest) 0

/-- Go `strconv.ParseInt(s, 10, 64)` — and `strconv.Atoi` on a 64-bit
platform, whose fast and slow paths agree with it.  The first component is
the integer Go returns: the parsed value when in range, `0` on a syntax
error, and the saturated `MaxInt64` / `MinInt64` on a range error.  The
second component is `true` exactly when no error is reported. -/
def goParseInt64 (s : String) : Int × Bool :=
  match s.data with
  | [] => (0, false)
  | c :: rest =>
    let neg := c == '-'
    let digits := if c == '-' || c == '+' then rest else c :: rest
    match decValue digits with
    | none => (0, false)
    | some n =>
      if neg then
        if n > 2 ^ 63 then (-(2 ^ 63 : Int), false) else (-(n : Int), true)
      else
        if n ≥ 2 ^ 63 then ((2 ^ 63 : Int) - 1, false) else ((n : Int), true)

/-- Go `strconv.ParseBool`: the exact token list from its `switch`; the first
component is the boolean Go returns (`false` on the error path), the second
is `true` exactly when the token was accepted. -/
def goParseBool (str : String) : Bool × Bool :=
  if str = "1" ∨ str = "t" ∨ str = "T" ∨ str = "true" ∨ str = "TRUE" ∨ str = "True" then
    (true, true)
  else if str = "0" ∨ str = "f" ∨ str = "F" ∨ str = "false" ∨ str = "FALSE" ∨ str = "False" then
    (false, true)
  else (false, false)

/-- The result of Go `strconv.ParseFloat(s, 64)`.  `zero` is the literal `0`
constant Go returns on a syntax error (also the `0` returned by getters on an
empty string before parsing); `infV`/`nanV` come from the `special` fast path
for `inf`/`infinity`/`nan`; `rounded` carries the exact syntactic reading of a
well-formed numeral (sign, mantissa digits, exponent, truncation and hex
flags) whose final IEEE-754 conversion is kept symbolic — no claim of this
development depends on the rounded numeric value, only on which constructor
is produced. -/
inductive GoFloat64 where
  | zero : GoFloat64
  | infV (neg : Bool) : GoFloat64
  | nanV : GoFloat64
  | rounded (neg : Bool) (mantissa : Nat) (exp : Int) (trunc : Bool) (hex : Bool) : GoFloat64
  deriving DecidableEq

/-- Byte-wise lower-casing as strconv's `lower` (or-ing in bit `0x20`),
expressed on character codes. -/
def lowerCode (c : Char) : Nat := c.toNat ||| 32

/-- strconv `commonPrefixLenIgnoreCase`: the length of the longest common
start of `s` and `t`, comparing case-insensitively byte by byte. -/
def matchLenIC : List Char → List Char → Nat
  | c :: cs, d :: ds => if lowerCode c == lowerCode d then matchLenIC cs ds + 1 else 0
  | _, _ => 0

/-- strconv `special`: recognise `inf` / `infinity` / `nan` (with an optional
sign before the infinities), returning the number of characters consumed and
the value — `(neg, isNaN)`.  The `nan` arm only fires without a sign, exactly
as in the Go `switch` with its fallthrough from the sign case. -/
def goSpecial (s : List Char) : Option (Nat × (Bool × Bool)) :=
  match s with
  | [] => none
  | c :: rest =>
    if c == '+' || c == '-' then
      let n := matchLenIC rest "infinity".data
      if n == 3 || n == 8 then some (1 + n, (c == '-', false)) else none
    else if c == 'i' || c == 'I' then
      let n := matchLenIC (c :: rest) "infinity".data
      if n == 3 || n == 8 then some (n, (false, false)) else none
    else if c == 'n' || c == 'N' then
      if matchLenIC (c :: rest) "nan".data == 3 then some (3, (false, true)) else none
    else none

/-- The mutable state of the mantissa loop of strconv `readFloat`. -/
structure MantSt where
  mantissa : Nat
  nd : Int
  ndMant : Nat
  dp : Int
  sawdot : Bool
  sawdigits : Bool
  trunc : Bool
  underscores : Bool

def mantSt0 : MantSt :=
  { mantissa := 0, nd := 0, ndMant := 0, dp := 0,
    sawdot := false, sawdigits := false, trunc := false, underscores := false }

/-- Whether `c` is a hexadecimal letter digit `a`–`f` / `A`–`F`. -/
def isHexLetter (c : Char) : Bool := 97 ≤ lowerCode c && lowerCode c ≤ 102

/-- The mantissa loop of strconv `readFloat`: consume underscores, at most one
dot, and digits (hex digits when `base = 16`), accumulating at most
`maxMant` mantissa digits; returns the state and the unconsumed characters. -/
def mantLoop (base maxMant : Nat) (st : MantSt) : List Char → MantSt × List Char
  | [] => (st, [])
  | c :: rest =>
    if c == '_' then mantLoop base maxMant { st with underscores := true } rest
    else if c == '.' then
      if st.sawdot then (st, c :: rest)
      else mantLoop base maxMant { st with sawdot := true, dp := st.nd } rest
    else if c.isDigit then
      if c == '0' && st.nd == 0 then
        mantLoop base maxMant { st with sawdigits := true, dp := st.dp - 1 } rest
      else if st.ndMant < maxMant then
        mantLoop base maxMant
          { st with sawdigits := true, nd := st.nd + 1,
                    mantissa := st.mantissa * base + (c.toNat - 48),
                    ndMant := st.ndMant + 1 } rest
      else if c != '0' then
        mantLoop base maxMant { st with sawdigits := true, nd := st.nd + 1, trunc := true } rest
      else
        mantLoop base maxMant { st with sawdigits := true, nd := st.nd + 1 } rest
    else if base == 16 && isHexLetter c then
      if st.ndMant < maxMant then
        mantLoop base maxMant
          { st with sawdigits := true, nd := st.nd + 1,
                    mantissa := st.mantissa * 16 + (lowerCode c - 97 + 10),
                    ndMant := st.ndMant + 1 } rest
      else
        mantLoop base maxMant { st with sawdigits := true, nd := st.nd + 1, trunc := true } rest
    else (st, c :: rest)

/-- The exponent digit loop of strconv `readFloat`: digits and underscores,
the accumulated value capped at `10000` plus one final step as in Go. -/
def expLoop (e : Nat) (uscore : Bool) : List Char → Nat × Bool × List Char
  | [] => (e, uscore, [])
  | c :: rest =>
    if c.isDigit then
      expLoop (if e < 10000 then e * 10 + (c.toNat - 48) else e) uscore rest
    else if c == '_' then expLoop e true rest
    else (e, uscore, c :: rest)

/-- The digit-class loop of strconv `underscoreOK`: `saw` is `0` for the
start-of-number state, `1` after a digit (or the base prefix), `2` after an
underscore, `3` after any other character. -/
def uscoreLoop (hex : Bool) (saw : Nat) : List Char → Bool
  | [] => saw ≠ 2
  | c :: rest =>
    if c.isDigit || (hex && isHexLetter c) then uscoreLoop hex 1 rest
    else if c == '_' then
      if saw != 1 then false else uscoreLoop hex 2 rest
    else if saw == 2 then false
    else uscoreLoop hex 3 rest

/-- strconv `underscoreOK`: underscores may only separate digits (the base
prefix counting as a digit). -/
def underscoreOKGo (s : List Char) : Bool :=
  let s1 :=
    match s with
    | c :: rest => if c == '-' || c == '+' then rest else c :: rest
    | [] => []
  match s1 with
  | a :: b :: rest =>
    if a == '0' && (lowerCode b == 98 || lowerCode b == 111 || lowerCode b == 120) then
      uscoreLoop (lowerCode b == 120) 1 rest
    else uscoreLoop false 0 (a :: b :: rest)
  | _ => uscoreLoop false 0 s1

/-- The outputs of strconv `readFloat` when it succeeds. -/
structure ReadFloatOut where
  mantissa : Nat
  exp : Int
  neg : Bool
  trunc : Bool
  hex : Bool
  deriving DecidableEq

/-- strconv `readFloat` on the whole remaining input: `(some out, i)` when the
reading succeeds after consuming `i` characters, `(none, i)` on failure.
Mantissa arithmetic is exact `Nat` arithmetic; the Go `uint64` cannot
overflow because at most 19 decimal (16 hexadecimal) digits are
accumulated. -/
def readFloat (s : String) : Option ReadFloatOut × Nat :=
  match s.data with
  | [] => (none, 0)
  | c0 :: rest0 =>
    let neg := c0 == '-'
    let afterSign := if c0 == '-' || c0 == '+' then rest0 else c0 :: rest0
    let signLen := if c0 == '-' || c0 == '+' then 1 else 0
    let hex :=
      match afterSign with
      | a :: b :: _ :: _ => a == '0' && lowerCode b == 120
      | _ => false
    let base := if hex then 16 else 10
    let maxMant := if hex then 16 else 19
    let baseLen := if hex then 2 else 0
    let body := if hex then afterSign.drop 2 else afterSign
    match mantLoop base maxMant mantSt0 body with
    | (st, remaining) =>
      if !st.sawdigits then (none, 0)
      else
        let dp0 : Int := if !st.sawdot then st.nd else st.dp
        let dp1 : Int := if hex then dp0 * 4 else dp0
        let ndMant1 : Nat := if hex then st.ndMant * 4 else st.ndMant
        let consumed := signLen + baseLen + (body.length - remaining.length)
        let expChar : Nat := if hex then 112 else 101
        match remaining with
        | e :: erest =>
          if lowerCode e == expChar then
            match erest with
            | [] => (none, 0)
            | d :: drest =>
              let esign : Int := if d == '-' then -1 else 1
              let edigits := if d == '-' || d == '+' then drest else d :: drest
              let esignLen := if d == '-' || d == '+' then 1 else 0
              match edigits with
              | [] => (none, 0)
              | f :: _ =>
                if !f.isDigit then (none, 0)
                else
                  match expLoop 0 st.underscores edigits with
                  | (ev, uscore, eRemaining) =>
                    let dp2 := dp1 + esign * (ev : Int)
                    let consumed2 := consumed + 1 + esignLen + (edigits.length - eRemaining.length)
                    let ex : Int := if st.mantissa ≠ 0 then dp2 - (ndMant1 : Int) else 0
                    if uscore && !underscoreOKGo (s.data.take consumed2) then (none, 0)
                    else
                      (some { mantissa := st.mantissa, exp := ex, neg := neg,
                              trunc := st.trunc, hex := hex }, consumed2)
          else if hex then (none, 0)
          else
            let ex : Int := if st.mantissa ≠ 0 then dp1 - (ndMant1 : Int) else 0
            if st.underscores && !underscoreOKGo (s.data.take consumed) then (none, 0)
            else
              (some { mantissa := st.mantissa, exp := ex, neg := neg,
                      trunc := st.trunc, hex := hex }, consumed)
        | [] =>
          if hex then (none, 0)
          else
            let ex : Int := if st.mantissa ≠ 0 then dp1 - (ndMant1 : Int) else 0
            if st.underscores && !underscoreOKGo (s.data.take consumed) then (none, 0)
            else
              (some { mantissa := st.mantissa, exp := ex, neg := neg,
                      trunc := st.trunc, hex := hex }, consumed)

/-- Go `strconv.ParseFloat(s, 64)`, as the value the caller keeps after
discarding the error: the `special` fast path, otherwise `readFloat`, and in
either case a syntax error — including a reading that does not consume the
whole string — yields the literal `0`. -/
def goParseFloat (s : String) : GoFloat64 :=
  match goSpecial s.data with
  | some (n, (neg, isnan)) =>
    if n == s.data.length then (if isnan then GoFloat64.nanV else GoFloat64.infV neg)
    else GoFloat64.zero
  | none =>
    match readFloat s with
    | (some r, n) =>
      if n == s.data.length then GoFloat64.rounded r.neg r.mantissa r.exp r.trunc r.hex
      else GoFloat64.zero
    | (none, _) => GoFloat64.zero

/-- The result of Go `time.ParseDuration` as kept by `GetDuration`: `zero` is
the literal `0` the getter returns on an empty string before any parsing;
`parsed` is the symbolic outcome on a non-empty string (no claim of this
development exercises the duration grammar). -/
inductive GoDuration where
  | zero : GoDuration
  | parsed (s : String) : GoDuration
  deriving DecidableEq

/-- Go `strings.Split(s, ",")` on characters. -/
def splitOnComma : List Char → List (List Char)
  | [] => [[]]
  | c :: rest =>
    if c == ',' then [] :: splitOnComma rest
    else
      match splitOnComma rest with
      | g :: gs => (c :: g) :: gs
      | [] => [[c]]

/-- A pluggable configuration source; `load` is the (pure, repeatable) outcome
of its `Load()` method, an error being carried as its message. -/
structure ConfigSource where
  name : String
  load : Except String GoMap

/-- The `config` struct: authoritative mapping, registered sources, and the
read-through cache.  The `sync.RWMutex` has no pure counterpart; the lock
discipline is modelled separately below. -/
structure Store where
  data : GoMap
  sources : List ConfigSource
  cache : GoMap

/-- `New()`: start from empty maps, load the env files, then the system
environment. -/
def New (sys : Sys) : Store :=
  { data := loadSystemEnv sys (loadEnvFiles sys GoMap.empty)
    sources := []
    cache := GoMap.empty }

/-- `Get`: cache first; on a cache miss and a data hit, populate the cache;
on a full miss return Go `nil`.  The second component is the store after the
call (the cache may have gained an entry). -/
def Store.Get (c : Store) (key : String) : GoVal × Store :=
  match c.cache key with
  | some val => (val, c)
  | none =>
    match c.data key with
    | some val => (val, { c with cache := c.cache.insert key val })
    | none => (GoVal.vnil, c)

/-- `GetString`: `nil` becomes `""`, a string is returned as-is, anything else
is formatted with `fmt.Sprintf` and the `v` verb. -/
def Store.GetString (c : Store) (key : String) : String × Store :=
  match c.Get key with
  | (GoVal.vnil, c') => ("", c')
  | (GoVal.vstr s, c') => (s, c')
  | (GoVal.other t, c') => (t, c')

/-- `GetInt`: empty string form short-circuits to `0`, otherwise the value of
`strconv.Atoi` with its error discarded. -/
def Store.GetInt (c : Store) (key : String) : Int × Store :=
  match c.GetString key with
  | (val, c') => if val = "" then (0, c') else ((goParseInt64 val).1, c')

/-- `GetInt64`: empty string form short-circuits to `0`, otherwise the value
of `strconv.ParseInt(val, 10, 64)` with its error discarded. -/
def Store.GetInt64 (c : Store) (key : String) : Int × Store :=
  match c.GetString key with
  | (val, c') => if val = "" then (0, c') else ((goParseInt64 val).1, c')

/-- `GetFloat64`: empty string form short-circuits to `0`, otherwise the value
of `strconv.ParseFloat(val, 64)` with its error discarded. -/
def Store.GetFloat64 (c : Store) (key : String) : GoFloat64 × Store :=
  match c.GetString key with
  | (val, c') => if val = "" then (GoFloat64.zero, c') else (goParseFloat val, c')

/-- `GetBool`: empty string form short-circuits to `false`, otherwise the
value of `strconv.ParseBool` with its error discarded. -/
def Store.GetBool (c : Store) (key : String) : Bool × Store :=
  match c.GetString key with
  | (val, c') => if val = "" then (false, c') else ((goParseBool val).1, c')

/-- `GetDuration`: empty string form short-circuits to the zero duration,
otherwise the value of `time.ParseDuration` with its error discarded. -/
def Store.GetDuration (c : Store) (key : String) : GoDuration × Store :=
  match c.GetString key with
  | (val, c') => if val = "" then (GoDuration.zero, c') else (GoDuration.parsed val, c')

/-- `GetStringSlice`: empty string form gives the empty list, otherwise split
on commas, trim each part, and keep the parts that remain non-empty, in
order. -/
def Store.GetStringSlice (c : Store) (key : String) : List String × Store :=
  match c.GetString key with
  | (val, c') =>
    if val = "" then ([], c')
    else
      (((splitOnComma val.data).map fun l => (⟨goTrimSpace l⟩ : String)).filter
        (fun t => t ≠ ""), c')

/-- `Set`: write the authoritative mapping, delete the key from the cache. -/
def Store.Set (c : Store) (key : String) (value : GoVal) : Store :=
  { c with data := c.data.insert key value, cache := c.cache.erase key }

/-- `Has`: membership in the authoritative mapping only. -/
def Store.Has (c : Store) (key : String) : Bool :=
  (c.data key).isSome

/-- `All`: a copy of the authoritative mapping (pointwise identical to it). -/
def Store.All (c : Store) : GoMap := fun k => c.data k

/-- `GetStringMap`: the sub-map of authoritative entries under `key.`; Go
builds it by iterating `c.data`, and pointwise the result maps `sub` to the
entry at `key ++ "." ++ sub` (distinct keys trim to distinct sub-keys). -/
def Store.GetStringMap (c : Store) (key : String) : GoMap :=
  fun sub => c.data (key ++ "." ++ sub)

/-- The source loop of `Reload`: merge each source's map over `data` in order,
returning on the first `Load()` error with the data merged so far. -/
def mergeSources (data : GoMap) : List ConfigSource → GoMap × Option String
  | [] => (data, none)
  | s :: rest =>
    match s.load with
    | Except.error e => (data, some e)
    | Except.ok m => mergeSources (GoMap.merge data m) rest

/-- `Reload`: clear the cache and the data, reload the env files and the
system environment, then merge every registered source in registration order,
stopping at the first error (the partially merged data is kept). -/
def Store.Reload (c : Store) (sys : Sys) : Store × Option String :=
  let r := mergeSources (loadSystemEnv sys (loadEnvFiles sys GoMap.empty)) c.sources
  ({ c with data := r.1, cache := GoMap.empty }, r.2)

/-- `AddSource`: append to the registration list. -/
def Store.AddSource (c : Store) (s : ConfigSource) : Store :=
  { c with sources := c.sources ++ [s] }

/-- One public operation of the store, for stating invariants over arbitrary
call sequences. -/
inductive Op where
  | get (k : String) : Op
  | getString (k : String) : Op
  | getInt (k : String) : Op
  | getInt64 (k : String) : Op
  | getFloat64 (k : String) : Op
  | getBool (k : String) : Op
  | getDuration (k : String) : Op
  | getStringSlice (k : String) : Op
  | getStringMap (k : String) : Op
  | set (k : String) (v : GoVal) : Op
  | has (k : String) : Op
  | all : Op
  | reload : Op
  | addSource (s : ConfigSource) : Op

/-- The operations that read through `Get` and may therefore populate the
cache. -/
def isGetFamily : Op → Bool
  | Op.get _ => true
  | Op.getString _ => true
  | Op.getInt _ => true
  | Op.getInt64 _ => true
  | Op.getFloat64 _ => true
  | Op.getBool _ => true
  | Op.getDuration _ => true
  | Op.getStringSlice _ => true
  | _ => false

/-- The store state after one operation (its return value discarded). -/
def step (sys : Sys) (c : Store) : Op → Store
  | Op.get k => (c.Get k).2
  | Op.getString k => (c.GetString k).2
  | Op.getInt k => (c.GetInt k).2
  | Op.getInt64 k => (c.GetInt64 k).2
  | Op.getFloat64 k => (c.GetFloat64 k).2
  | Op.getBool k => (c.GetBool k).2
  | Op.getDuration k => (c.GetDuration k).2
  | Op.getStringSlice k => (c.GetStringSlice k).2
  | Op.getStringMap _ => c
  | Op.set k v => c.Set k v
  | Op.has _ => c
  | Op.all => c
  | Op.reload => (c.Reload sys).1
  | Op.addSource s => c.AddSource s

/-- The store state after a sequence of operations. -/
def runOps (sys : Sys) (ops : List Op) (c : Store) : Store :=
  ops.foldl (step sys) c

/-- Cache coherence: every cache entry agrees with the authoritative mapping,
so a `Get` answered from the cache returns the authoritative value. -/
abbrev CacheOK (c : Store) : Prop :=
  ∀ k v, c.cache k = some v → c.data k = some v

/-- Which side of the `sync.RWMutex` an operation takes, read off the
`mu.RLock()` / `mu.Lock()` call in its body (the getters built on `Get`
inherit its read lock). -/
inductive LockClass where
  | shared : LockClass
  | exclusive : LockClass
  deriving DecidableEq

def lockTaken : Op → LockClass
  | Op.set _ _ => LockClass.exclusive
  | Op.reload => LockClass.exclusive
  | Op.addSource _ => LockClass.exclusive
  | _ => LockClass.shared

/-- Two operations can hold the `RWMutex` at the same time exactly when both
take it in shared (read) mode. -/
def canOverlap (a b : Op) : Bool :=
  decide (lockTaken a = LockClass.shared) && decide (lockTaken b = LockClass.shared)

/-- The property claimed of the lock discipline: of any two operations that
the `RWMutex` allows to run at the same time, at least one never mutates the
store — i.e. no two operations ever mutate the mapping or the cache
concurrently. -/
def NoConcurrentMutation (sys : Sys) : Prop :=
  ∀ a b : Op, canOverlap a b = true →
    (∀ c : Store, step sys c a = c) ∨ (∀ c : Store, step sys c b = c)

/-- The mapping contributed by one env-file layer alone. -/
def fileLayer (sys : Sys) (filename : String) : GoMap :=
  loadEnvFile sys GoMap.empty filename

/-- The mapping contributed by the live process environment alone. -/
def envLayer (sys : Sys) : GoMap :=
  loadSystemEnv sys GoMap.empty

/-- The merged file/environment layers in precedence order:
`.env` < `.local.env` < `.<APP_ENV>.env` < process environment. -/
def layersLookup (sys : Sys) : GoMap :=
  GoMap.merge
    (GoMap.merge
      (GoMap.merge (fileLayer sys ".env") (fileLayer sys ".local.env"))
      (fileLayer sys ("." ++ appEnvName sys ++ ".env")))
    (envLayer sys)

/-- The value a key receives from a list of sources, later registrations
taking precedence; `none` both for keys no source supplies and below a
failing source. -/
def sourcesLookup : List ConfigSource → String → Option GoVal
  | [], _ => none
  | s :: rest, k =>
    match sourcesLookup rest k with
    | some v => some v
    | none =>
      match s.load with
      | Except.ok m => m k
      | Except.error _ => none

/-- Specification-side recognizer of the decimal-integer strings accepted by
`strconv.ParseInt(s, 10, _)` up to range: an optional sign followed by at
least one ASCII digit and nothing else. -/
def intSyntaxOK (s : String) : Bool :=
  match s.data with
  | [] => false
  | c :: rest =>
    let ds := if c == '-' || c == '+' then rest else c :: rest
    !ds.isEmpty && ds.all Char.isDigit

/-- The numeric value of a run of ASCII digits. -/
def digitsVal (l : List Char) : Nat :=
  l.foldl (fun a c => a * 10 + (c.toNat - 48)) 0

/-- Specification-side exact value of a signed decimal numeral (unbounded). -/
def intValSpec (s : String) : Int :=
  match s.data with
  | [] => 0
  | c :: rest =>
    let ds := if c == '-' || c == '+' then rest else c :: rest
    if c == '-' then -(digitsVal ds : Int) else (digitsVal ds : Int)

/-- The strings `strconv.ParseFloat(s, 64)` accepts syntactically: either the
`special` fast path or `readFloat` succeeds, in both cases consuming the
whole string. -/
def floatSyntaxOK (s : String) : Bool :=
  (match goSpecial s.data with
   | some (n, _) => n == s.data.length
   | none => false) ||
  (match readFloat s with
   | (some _, n) => n == s.data.length
   | (none, _) => false)

/-- The double-quote character (code 34). -/
def dqC : Char := Char.ofNat 34

/-- The single-quote character (code 39). -/
def sqC : Char := Char.ofNat 39

/-- A store with empty mapping, cache and source list. -/
def store0 : Store :=
  { data := GoMap.empty, sources := [], cache := GoMap.empty }

/-- A store whose mapping holds the concrete strings the witnesses below
read back through the typed getters. -/
def storeW : Store :=
  { data := fun q =>
      if q = "bad" then some (GoVal.vstr "12a")
      else if q = "big" then some (GoVal.vstr "99999999999999999999")
      else if q = "low" then some (GoVal.vstr "-99999999999999999999")
      else if q = "num" then some (GoVal.vstr "42")
      else if q = "nf" then some (GoVal.vstr "1.2.3")
      else if q = "bt" then some (GoVal.vstr "True")
      else if q = "bf" then some (GoVal.vstr "no")
      else if q = "bc" then some (GoVal.vstr "tRuE")
      else none
    sources := []
    cache := GoMap.empty }

/-- The witness store after one read of `bt`: its cache holds one entry. -/
def storeWC : Store := (storeW.Get "bt").2

/-- A concrete process state: three env files (the `.dev.env` one selected by
an unset `APP_ENV`), one environment entry, and a malformed entry. -/
def sysW : Sys :=
  { files := fun n =>
      if n = ".env" then some ["A=1", "S=a", "# comment", "bad line"]
      else if n = ".local.env" then some ["L=2", "S=b"]
      else if n = ".dev.env" then some ["D=3", "S=c"]
      else none
    environ := ["S=d", "E=sys", "noequals"]
    getenv := fun _ => "" }

/-- A source supplying `S` and `X`. -/
def srcOkW : ConfigSource :=
  { name := "ok"
    load := Except.ok ((GoMap.empty.insert "S" (GoVal.vstr "e")).insert "X" (GoVal.vstr "x")) }

/-- A source whose `Load()` fails. -/
def srcErrW : ConfigSource :=
  { name := "boom", load := Except.error "boom" }

/-- A store with one successful registered source. -/
def storeSrcOk : Store :=
  { data := GoMap.empty, sources := [srcOkW], cache := GoMap.empty }

/-- A store whose second registered source fails and whose third would
supply `Y` (never consulted). -/
def storeSrcErr : Store :=
  { data := GoMap.empty
    sources := [srcOkW, srcErrW,
      { name := "later", load := Except.ok (GoMap.empty.insert "Y" (GoVal.vstr "y")) }]
    cache := GoMap.empty }

/-- C3: setting a key and immediately reading it returns exactly the value
that was set (whatever its type), because `Set` writes the authoritative
mapping and unconditionally deletes the key from the cache. -/
theorem c3_set_then_get (c : Store) (k : String) (v : GoVal) :
    ((c.Set k v).Get k).1 = v ∧
    (c.Set k v).data k = some v ∧
    (c.Set k v).cache k = none := by
  refine ⟨?_, ?_, ?_⟩ <;>
    simp [Store.Set, Store.Get, GoMap.insert, GoMap.erase]

/-- Looking up a merge where the overriding map hits. -/
theorem merge_some (m src : GoMap) (k : String) (v : GoVal) (h : src k = some v) :
    GoMap.merge m src k = some v := by
  simp [GoMap.merge, h]

/-- Looking up a merge where the overriding map misses. -/
theorem merge_none (m src : GoMap) (k : String) (h : src k = none) :
    GoMap.merge m src k = m k := by
  simp [GoMap.merge, h]

/-- An insert-fold from an arbitrary start map looks up as the start map
overridden by the same fold from the empty map. -/
theorem insertFold_apply (f : String → Option (String × GoVal)) (xs : List String)
    (k : String) : ∀ d : GoMap,
    insertFold f d xs k = GoMap.merge d (insertFold f GoMap.empty xs) k := by
  induction xs with
  | nil => intro d; simp [insertFold, GoMap.merge, GoMap.empty]
  | cons x xs ih =>
    intro d
    cases h : f x with
    | none => simp only [insertFold, h]; exact ih d
    | some kv =>
      obtain ⟨key, v⟩ := kv
      simp only [insertFold, h]
      rw [ih (d.insert key v)]
      cases hc : insertFold f GoMap.empty xs k with
      | some w =>
        have hv : insertFold f (GoMap.empty.insert key v) xs k = some w := by
          rw [ih (GoMap.empty.insert key v)]; exact merge_some _ _ _ _ hc
        rw [merge_some _ _ _ _ hc, merge_some _ _ _ _ hv]
      | none =>
        rw [merge_none _ _ _ hc]
        have hinner : insertFold f (GoMap.empty.insert key v) xs k
            = (GoMap.empty.insert key v) k := by
          rw [ih (GoMap.empty.insert key v)]; exact merge_none _ _ _ hc
        by_cases hk : k = key
        · have hv : insertFold f (GoMap.empty.insert key v) xs k = some v := by
            rw [hinner]; simp [GoMap.insert, hk]
          rw [merge_some _ _ _ _ hv]
          simp [GoMap.insert, hk]
        · have hv : insertFold f (GoMap.empty.insert key v) xs k = none := by
            rw [hinner]; simp [GoMap.insert, GoMap.empty, hk]
          rw [merge_none _ _ _ hv]
          simp [GoMap.insert, hk]

/-- Loading one env file over an arbitrary start map looks up as the start
map overridden by that file's own layer. -/
theorem loadEnvFile_apply (sys : Sys) (d : GoMap) (filename : String) (k : String) :
    loadEnvFile sys d filename k = GoMap.merge d (fileLayer sys filename) k := by
  unfold fileLayer loadEnvFile
  cases h : sys.files filename with
  | none => simp [GoMap.merge, GoMap.empty]
  | some lines => simpa [loadLines] using insertFold_apply lineEntry lines k d

/-- The data built by `New` (and by the file/environment phase of `Reload`)
looks up, key for key, as the four layers merged in precedence order. -/
theorem baseData_apply (sys : Sys) (k : String) :
    loadSystemEnv sys (loadEnvFiles sys GoMap.empty) k = layersLookup sys k := by
  have h4 : loadSystemEnv sys (loadEnvFiles sys GoMap.empty) k
      = GoMap.merge (loadEnvFiles sys GoMap.empty) (envLayer sys) k := by
    simpa [loadSystemEnv, envLayer] using
      insertFold_apply envEntry sys.environ k (loadEnvFiles sys GoMap.empty)
  have h23 : loadEnvFiles sys GoMap.empty k
      = GoMap.merge (GoMap.merge (fileLayer sys ".env") (fileLayer sys ".local.env"))
          (fileLayer sys ("." ++ appEnvName sys ++ ".env")) k := by
    unfold loadEnvFiles
    rw [loadEnvFile_apply]
    cases hf3 : fileLayer sys ("." ++ appEnvName sys ++ ".env") k with
    | some v => rw [merge_some _ _ _ _ hf3, merge_some _ _ _ _ hf3]
    | none =>
      rw [merge_none _ _ _ hf3, merge_none _ _ _ hf3]
      have h2 : loadEnvFile sys GoMap.empty ".env" = fileLayer sys ".env" := rfl
      rw [h2, loadEnvFile_apply]
  unfold layersLookup
  cases he : envLayer sys k with
  | some v => rw [h4, merge_some _ _ _ _ he, merge_some _ _ _ _ he]
  | none => rw [h4, merge_none _ _ _ he, merge_none _ _ _ he, h23]

/-- When every source loads successfully, the source loop reports no error
and looks up as the sources' own chain over the incoming data. -/
theorem mergeSources_ok (srcs : List ConfigSource)
    (hok : ∀ s ∈ srcs, ∃ m, s.load = Except.ok m) (k : String) : ∀ d : GoMap,
    (mergeSources d srcs).2 = none ∧
    (mergeSources d srcs).1 k
      = (match sourcesLookup srcs k with
         | some v => some v
         | none => d k) := by
  induction srcs with
  | nil => intro d; simp [mergeSources, sourcesLookup]
  | cons s rest ih =>
    intro d
    obtain ⟨m, hm⟩ := hok s (List.mem_cons_self s rest)
    have hrest : ∀ t ∈ rest, ∃ m, t.load = Except.ok m := fun t ht =>
      hok t (List.mem_cons_of_mem s ht)
    have ih' := (fun d => ih hrest d)
    simp only [mergeSources, sourcesLookup, hm]
    refine ⟨(ih' (GoMap.merge d m)).1, ?_⟩
    rw [(ih' (GoMap.merge d m)).2]
    cases sourcesLookup rest k with
    | some v => rfl
    | none => simp [GoMap.merge]

/-- When the sources are a successful block, then a failing source, then
anything: the loop returns that error and the data of the successful block
merged over the incoming data; the sources after the failure contribute
nothing. -/
theorem mergeSources_err (pre : List ConfigSource) (post : List ConfigSource)
    (s : ConfigSource) (e : String)
    (hpre : ∀ t ∈ pre, ∃ m, t.load = Except.ok m) (hs : s.load = Except.error e)
    (k : String) : ∀ d : GoMap,
    (mergeSources d (pre ++ s :: post)).2 = some e ∧
    (mergeSources d (pre ++ s :: post)).1 k
      = (match sourcesLookup pre k with
         | some v => some v
         | none => d k) := by
  induction pre with
  | nil => intro d; simp [mergeSources, sourcesLookup, hs]
  | cons t rest ih =>
    intro d
    obtain ⟨m, hm⟩ := hpre t (List.mem_cons_self t rest)
    have hrest : ∀ u ∈ rest, ∃ m, u.load = Except.ok m := fun u hu =>
      hpre u (List.mem_cons_of_mem t hu)
    have ih' := ih hrest
    simp only [List.cons_append, List.append_eq, mergeSources, sourcesLookup, hm]
    refine ⟨(ih' (GoMap.merge d m)).1, ?_⟩
    rw [(ih' (GoMap.merge d m)).2]
    cases sourcesLookup rest k with
    | some v => rfl
    | none => simp [GoMap.merge]

/-- The successful source used by the witnesses loads some map. -/
theorem srcOkW_ok : ∃ m, srcOkW.load = Except.ok m :=
  ⟨(GoMap.empty.insert "S" (GoVal.vstr "e")).insert "X" (GoVal.vstr "x"), rfl⟩

/-- C1: after `New` the value of every key is that of the highest-precedence
layer holding it, in the order `.env` < `.local.env` < `.<APP_ENV>.env`
(with `APP_ENV` defaulting to `dev` when empty) < process environment; after
a `Reload` whose sources all succeed, the registered sources sit above all of
those, in registration order. -/
theorem c1_layer_precedence (sys : Sys) (c : Store) (k : String)
    (hok : ∀ s ∈ c.sources, ∃ m, s.load = Except.ok m) :
    (New sys).data k = layersLookup sys k ∧
    (c.Reload sys).2 = none ∧
    (c.Reload sys).1.data k
      = (match sourcesLookup c.sources k with
         | some v => some v
         | none => layersLookup sys k) ∧
    (sys.getenv "APP_ENV" = "" → appEnvName sys = "dev") := by
  have hbase := baseData_apply sys k
  have hm := mergeSources_ok c.sources hok k (loadSystemEnv sys (loadEnvFiles sys GoMap.empty))
  refine ⟨hbase, ?_, ?_, ?_⟩
  · simpa [Store.Reload] using hm.1
  · show (mergeSources (loadSystemEnv sys (loadEnvFiles sys GoMap.empty)) c.sources).1 k = _
    rw [hm.2, hbase]
  · intro h; simp [appEnvName, h]

/-- C1 witness: with `.env`, `.local.env` and `.dev.env` all present and all
holding `S`, an environment entry `S=d`, and one registered source supplying
`S=e`: `New` sees the environment value and `Reload` the source value, with
the error slot empty. -/
theorem c1_witness :
    (New sysW).data "S" = some (GoVal.vstr "d") ∧
    (New sysW).data "A" = some (GoVal.vstr "1") ∧
    (New sysW).data "D" = some (GoVal.vstr "3") ∧
    (storeSrcOk.Reload sysW).2 = none ∧
    (storeSrcOk.Reload sysW).1.data "S" = some (GoVal.vstr "e") ∧
    appEnvName sysW = "dev" := by
  have hS := c1_layer_precedence sysW storeSrcOk "S"
    (by intro s hs; simp only [storeSrcOk, List.mem_singleton] at hs; rw [hs]; exact srcOkW_ok)
  have hA := c1_layer_precedence sysW storeSrcOk "A"
    (by intro s hs; simp only [storeSrcOk, List.mem_singleton] at hs; rw [hs]; exact srcOkW_ok)
  have hD := c1_layer_precedence sysW storeSrcOk "D"
    (by intro s hs; simp only [storeSrcOk, List.mem_singleton] at hs; rw [hs]; exact srcOkW_ok)
  refine ⟨?_, ?_, ?_, hS.2.1, ?_, hS.2.2.2 rfl⟩
  · rw [hS.1]; decide
  · rw [hA.1]; decide
  · rw [hD.1]; decide
  · rw [hS.2.2.1]; decide

/-- C2: when a registered source fails during `Reload`, the error of the
first failing source is returned, the mapping keeps the file/environment
layers plus the sources that already succeeded (no rollback, no clearing),
later sources contribute nothing, and `AddSource` appends in registration
order. -/
theorem c2_reload_source_error (sys : Sys) (c : Store) (k : String)
    (pre post : List ConfigSource) (s : ConfigSource) (e : String)
    (hsrc : c.sources = pre ++ s :: post)
    (hpre : ∀ t ∈ pre, ∃ m, t.load = Except.ok m)
    (hs : s.load = Except.error e) :
    (c.Reload sys).2 = some e ∧
    (c.Reload sys).1.data k
      = (match sourcesLookup pre k with
         | some v => some v
         | none => layersLookup sys k) ∧
    (∀ src, (c.AddSource src).sources = c.sources ++ [src]) := by
  have hm := mergeSources_err pre post s e hpre hs k
    (loadSystemEnv sys (loadEnvFiles sys GoMap.empty))
  refine ⟨?_, ?_, fun src => rfl⟩
  · show (mergeSources (loadSystemEnv sys (loadEnvFiles sys GoMap.empty)) c.sources).2 = some e
    rw [hsrc]; exact hm.1
  · show (mergeSources (loadSystemEnv sys (loadEnvFiles sys GoMap.empty)) c.sources).1 k = _
    rw [hsrc, hm.2, baseData_apply]

/-- C2 witness: a store whose sources are a succeeding one, a failing one,
and a later one supplying `Y`: `Reload` returns the error, keeps the
environment-derived `E` and the first source's `X`, and never sees `Y`. -/
theorem c2_witness :
    (storeSrcErr.Reload sysW).2 = some "boom" ∧
    (storeSrcErr.Reload sysW).1.data "E" = some (GoVal.vstr "sys") ∧
    (storeSrcErr.Reload sysW).1.data "X" = some (GoVal.vstr "x") ∧
    (storeSrcErr.Reload sysW).1.data "S" = some (GoVal.vstr "e") ∧
    (storeSrcErr.Reload sysW).1.data "Y" = none := by
  have h := fun k => c2_reload_source_error sysW storeSrcErr k [srcOkW]
    [{ name := "later", load := Except.ok (GoMap.empty.insert "Y" (GoVal.vstr "y")) }]
    srcErrW "boom" rfl
    (by intro t ht; simp only [List.mem_singleton] at ht; rw [ht]; exact srcOkW_ok)
    rfl
  refine ⟨(h "E").1, ?_, ?_, ?_, ?_⟩
  · rw [(h "E").2.1]; decide
  · rw [(h "X").2.1]; decide
  · rw [(h "S").2.1]; decide
  · rw [(h "Y").2.1]; decide

/-- The store returned by `GetString` is the one returned by `Get`. -/
theorem getString_snd (c : Store) (k : String) : (c.GetString k).2 = (c.Get k).2 := by
  unfold Store.GetString
  rcases h : c.Get k with ⟨v, c'⟩
  cases v <;> rfl

/-- The value returned by `GetString`, as a function of the value `Get`
returns. -/
theorem getString_fst (c : Store) (k : String) :
    (c.GetString k).1
      = (match (c.Get k).1 with
         | GoVal.vnil => ""
         | GoVal.vstr s => s
         | GoVal.other t => t) := by
  unfold Store.GetString
  rcases h : c.Get k with ⟨v, c'⟩
  cases v <;> rfl

theorem getInt_snd (c : Store) (k : String) : (c.GetInt k).2 = (c.Get k).2 := by
  rw [← getString_snd]
  unfold Store.GetInt
  rcases h : c.GetString k with ⟨s, c'⟩
  by_cases hs : s = "" <;> simp [hs]

theorem getInt_fst (c : Store) (k : String) :
    (c.GetInt k).1
      = (if (c.GetString k).1 = "" then 0 else (goParseInt64 (c.GetString k).1).1) := by
  unfold Store.GetInt
  rcases h : c.GetString k with ⟨s, c'⟩
  by_cases hs : s = "" <;> simp [hs]

theorem getInt64_snd (c : Store) (k : String) : (c.GetInt64 k).2 = (c.Get k).2 := by
  rw [← getString_snd]
  unfold Store.GetInt64
  rcases h : c.GetString k with ⟨s, c'⟩
  by_cases hs : s = "" <;> simp [hs]

theorem getInt64_fst (c : Store) (k : String) :
    (c.GetInt64 k).1
      = (if (c.GetString k).1 = "" then 0 else (goParseInt64 (c.GetString k).1).1) := by
  unfold Store.GetInt64
  rcases h : c.GetString k with ⟨s, c'⟩
  by_cases hs : s = "" <;> simp [hs]

theorem getFloat64_snd (c : Store) (k : String) : (c.GetFloat64 k).2 = (c.Get k).2 := by
  rw [← getString_snd]
  unfold Store.GetFloat64
  rcases h : c.GetString k with ⟨s, c'⟩
  by_cases hs : s = "" <;> simp [hs]

theorem getFloat64_fst (c : Store) (k : String) :
    (c.GetFloat64 k).1
      = (if (c.GetString k).1 = "" then GoFloat64.zero
         else goParseFloat (c.GetString k).1) := by
  unfold Store.GetFloat64
  rcases h : c.GetString k with ⟨s, c'⟩
  by_cases hs : s = "" <;> simp [hs]

theorem getBool_snd (c : Store) (k : String) : (c.GetBool k).2 = (c.Get k).2 := by
  rw [← getString_snd]
  unfold Store.GetBool
  rcases h : c.GetString k with ⟨s, c'⟩
  by_cases hs : s = "" <;> simp [hs]

theorem getBool_fst (c : Store) (k : String) :
    (c.GetBool k).1
      = (if (c.GetString k).1 = "" then false else (goParseBool (c.GetString k).1).1) := by
  unfold Store.GetBool
  rcases h : c.GetString k with ⟨s, c'⟩
  by_cases hs : s = "" <;> simp [hs]

theorem getDuration_snd (c : Store) (k : String) : (c.GetDuration k).2 = (c.Get k).2 := by
  rw [← getString_snd]
  unfold Store.GetDuration
  rcases h : c.GetString k with ⟨s, c'⟩
  by_cases hs : s = "" <;> simp [hs]

theorem getDuration_fst (c : Store) (k : String) :
    (c.GetDuration k).1
      = (if (c.GetString k).1 = "" then GoDuration.zero
         else GoDuration.parsed (c.GetString k).1) := by
  unfold Store.GetDuration
  rcases h : c.GetString k with ⟨s, c'⟩
  by_cases hs : s = "" <;> simp [hs]

theorem getStringSlice_snd (c : Store) (k : String) :
    (c.GetStringSlice k).2 = (c.Get k).2 := by
  rw [← getString_snd]
  unfold Store.GetStringSlice
  rcases h : c.GetString k with ⟨s, c'⟩
  by_cases hs : s = "" <;> simp [hs]

theorem getStringSlice_fst (c : Store) (k : String) :
    (c.GetStringSlice k).1
      = (if (c.GetString k).1 = "" then []
         else ((splitOnComma (c.GetString k).1.data).map
            fun l => ((⟨goTrimSpace l⟩ : String))).filter (fun t => t ≠ "")) := by
  unfold Store.GetStringSlice
  rcases h : c.GetString k with ⟨s, c'⟩
  by_cases hs : s = "" <;> simp [hs]

/-- `Get` preserves cache coherence: the only entry it can add is the
authoritative value of the key it read. -/
theorem cacheOK_get (c : Store) (k : String) (h : CacheOK c) : CacheOK ((c.Get k).2) := by
  unfold Store.Get
  cases hc : c.cache k with
  | some v => exact h
  | none =>
    cases hd : c.data k with
    | none => exact h
    | some v =>
      intro q w hq
      simp only [GoMap.insert] at hq
      by_cases hqk : q = k
      · subst hqk
        simp only [if_pos rfl, Option.some.injEq] at hq
        exact hq ▸ hd
      · simp only [if_neg hqk] at hq
        exact h q w hq

/-- Every operation preserves cache coherence. -/
theorem cacheOK_step (sys : Sys) (c : Store) (op : Op) (h : CacheOK c) :
    CacheOK (step sys c op) := by
  cases op with
  | get k => exact cacheOK_get c k h
  | getString k => simp only [step]; rw [getString_snd]; exact cacheOK_get c k h
  | getInt k => simp only [step]; rw [getInt_snd]; exact cacheOK_get c k h
  | getInt64 k => simp only [step]; rw [getInt64_snd]; exact cacheOK_get c k h
  | getFloat64 k => simp only [step]; rw [getFloat64_snd]; exact cacheOK_get c k h
  | getBool k => simp only [step]; rw [getBool_snd]; exact cacheOK_get c k h
  | getDuration k => simp only [step]; rw [getDuration_snd]; exact cacheOK_get c k h
  | getStringSlice k => simp only [step]; rw [getStringSlice_snd]; exact cacheOK_get c k h
  | getStringMap k => exact h
  | set k v =>
    intro q w hq
    simp only [step, Store.Set, GoMap.erase] at hq
    by_cases hqk : q = k
    · simp [hqk] at hq
    · simp only [if_neg hqk] at hq
      simp only [step, Store.Set, GoMap.insert, if_neg hqk]
      exact h q w hq
  | has k => exact h
  | all => exact h
  | reload =>
    intro q w hq
    simp [step, Store.Reload, GoMap.empty] at hq
  | addSource s => exact h

/-- A sequence of operations preserves cache coherence. -/
theorem cacheOK_runOps (sys : Sys) (ops : List Op) :
    ∀ c : Store, CacheOK c → CacheOK (runOps sys ops c) := by
  induction ops with
  | nil => intro c h; exact h
  | cons op ops ih =>
    intro c h
    exact ih (step sys c op) (cacheOK_step sys c op h)

/-- A fresh store is cache-coherent (its cache is empty). -/
theorem cacheOK_new (sys : Sys) : CacheOK (New sys) := by
  intro k v h
  simp [New, GoMap.empty] at h

/-- C4: over every operation sequence from `New`, the cache stays coherent
with the authoritative mapping; no operation outside the `Get` family ever
adds a cache entry; a `Get` miss returns the absent indicator and leaves the
store untouched; and `Set` / `Reload` leave every key they wrote absent from
the cache. -/
theorem c4_cache_discipline (sys : Sys) (ops : List Op) (c : Store) (op : Op)
    (k : String) (v w : GoVal) :
    CacheOK (runOps sys ops (New sys)) ∧
    (isGetFamily op = false →
      (step sys c op).cache k = some v → c.cache k = some v) ∧
    (c.data k = none → c.cache k = none →
      (c.Get k).1 = GoVal.vnil ∧ (c.Get k).2 = c) ∧
    (c.Set k w).cache k = none ∧
    (c.Reload sys).1.cache k = none := by
  refine ⟨cacheOK_runOps sys ops (New sys) (cacheOK_new sys), ?_, ?_, ?_, ?_⟩
  · intro hop hq
    cases op with
    | get q => simp [isGetFamily] at hop
    | getString q => simp [isGetFamily] at hop
    | getInt q => simp [isGetFamily] at hop
    | getInt64 q => simp [isGetFamily] at hop
    | getFloat64 q => simp [isGetFamily] at hop
    | getBool q => simp [isGetFamily] at hop
    | getDuration q => simp [isGetFamily] at hop
    | getStringSlice q => simp [isGetFamily] at hop
    | getStringMap q => exact hq
    | set q u =>
      simp only [step, Store.Set, GoMap.erase] at hq
      by_cases hk : k = q
      · simp [hk] at hq
      · simpa [hk] using hq
    | has q => exact hq
    | all => exact hq
    | reload => simp [step, Store.Reload, GoMap.empty] at hq
    | addSource s => exact hq
  · intro h1 h2
    constructor <;> simp [Store.Get, h1, h2]
  · simp [Store.Set, GoMap.erase]
  · simp [Store.Reload, GoMap.empty]

/-- C4 witness: a concrete run (a set, then a hit), a non-get operation over
a store with a cached entry, a miss, and a set/reload, discharging every
hypothesis of the discipline theorem. -/
theorem c4_witness :
    (runOps sysW [Op.set "a" (GoVal.vstr "1"), Op.get "a"] (New sysW)).data "a"
        = some (GoVal.vstr "1") ∧
    storeWC.cache "bt" = some (GoVal.vstr "True") ∧
    (storeW.Get "missing").1 = GoVal.vnil ∧ (storeW.Get "missing").2 = storeW ∧
    (storeW.Set "num" (GoVal.vstr "7")).cache "num" = none ∧
    (storeW.Reload sysW).1.cache "num" = none := by
  have h1 := (c4_cache_discipline sysW [Op.set "a" (GoVal.vstr "1"), Op.get "a"]
    store0 Op.all "a" (GoVal.vstr "1") GoVal.vnil).1 "a" (GoVal.vstr "1") (by decide)
  have h2 := (c4_cache_discipline sysW [] storeWC (Op.has "bt") "bt"
    (GoVal.vstr "True") GoVal.vnil).2.1 (by decide) (by decide)
  have h3 := (c4_cache_discipline sysW [] storeW Op.all "missing"
    GoVal.vnil GoVal.vnil).2.2.1 (by decide) (by decide)
  have h45 := (c4_cache_discipline sysW [] storeW Op.all "num"
    GoVal.vnil (GoVal.vstr "7")).2.2.2
  exact ⟨h1, h2, h3.1, h3.2, h45.1, h45.2⟩

/-- C9: the failing input of the concurrency claim.  `Get` takes only the
shared (read) side of the `RWMutex`, so two `Get` calls may hold the lock at
the same time — yet a `Get` on a key present in the mapping but not in the
cache mutates the cache.  Hence it is not true that no two operations ever
mutate the cache or the mapping concurrently: two such `Get`s do, and
`NoConcurrentMutation` is refuted at this input.  (The `Set`-versus-`Get`
half of the claim does hold: `Set` takes the exclusive lock, and
`canOverlap` rules out `Set` running beside anything.) -/
theorem c9_get_cache_race :
    lockTaken (Op.get "num") = LockClass.shared ∧
    canOverlap (Op.get "num") (Op.get "num") = true ∧
    canOverlap (Op.set "num" GoVal.vnil) (Op.get "num") = false ∧
    storeW.cache "num" = none ∧
    (step sysW storeW (Op.get "num")).cache "num" = some (GoVal.vstr "42") ∧
    ¬ NoConcurrentMutation sysW := by
  refine ⟨rfl, by decide, by decide, rfl, by decide, ?_⟩
  intro hN
  have h := hN (Op.get "num") (Op.get "num") (by decide)
  have h2 : step sysW storeW (Op.get "num") = storeW := by
    rcases h with h | h <;> exact h storeW
  have h3 : (some (GoVal.vstr "42") : Option GoVal) = none := by
    calc (some (GoVal.vstr "42") : Option GoVal)
        = (step sysW storeW (Op.get "num")).cache "num" := by decide
      _ = storeW.cache "num" := by rw [h2]
      _ = none := rfl
  exact Option.noConfusion h3

/-- The digit-run accumulator succeeds exactly on all-digit input, computing
the left fold of the accumulator. -/
theorem decValueAux_eq (l : List Char) : ∀ acc : Nat,
    decValueAux l acc
      = (if l.all Char.isDigit then
           some (l.foldl (fun a c => a * 10 + (c.toNat - 48)) acc)
         else none) := by
  induction l with
  | nil => intro acc; simp [decValueAux]
  | cons c cs ih =>
    intro acc
    by_cases hc : c.isDigit <;> simp [decValueAux, hc, ih]

/-- `decValue` succeeds exactly on a non-empty all-digit run, computing its
numeric value. -/
theorem decValue_eq (l : List Char) :
    decValue l
      = (if !l.isEmpty && l.all Char.isDigit then some (digitsVal l) else none) := by
  cases l with
  | nil => simp [decValue]
  | cons c cs => simp [decValue, decValueAux_eq, digitsVal]

/-- On a string rejected by the integer recognizer, Go's `ParseInt` (with the
error discarded) returns `0`. -/
theorem goParseInt64_err (s : String) (h : intSyntaxOK s = false) :
    (goParseInt64 s).1 = 0 := by
  unfold intSyntaxOK at h
  unfold goParseInt64
  cases hd : s.data with
  | nil => rfl
  | cons c rest =>
    rw [hd] at h
    dsimp only at h ⊢
    rw [decValue_eq, h, if_neg (by simp : ¬ (false = true))]

/-- On a string accepted by the integer recognizer, Go's `ParseInt` (with the
error discarded) returns the exact value clamped into the `int64` range. -/
theorem goParseInt64_val (s : String) (h : intSyntaxOK s = true) :
    (goParseInt64 s).1
      = (if 2 ^ 63 ≤ intValSpec s then 2 ^ 63 - 1
         else if intValSpec s < -(2 ^ 63) then -(2 ^ 63)
         else intValSpec s) := by
  unfold intSyntaxOK at h
  unfold goParseInt64 intValSpec
  cases hd : s.data with
  | nil => rw [hd] at h; simp at h
  | cons c rest =>
    rw [hd] at h
    dsimp only at h ⊢
    rw [decValue_eq, h, if_pos rfl]
    dsimp only
    generalize digitsVal (if (c == '-' || c == '+') = true then rest else c :: rest) = n
    cases hcm : c == '-' with
    | true =>
      rw [if_pos rfl, if_pos rfl]
      by_cases hbig : n > 2 ^ 63
      · rw [if_pos hbig]
        have h1 : ¬ ((2 : Int) ^ 63 ≤ -(n : Int)) := by omega
        have h2 : -(n : Int) < -(2 ^ 63) := by omega
        rw [if_neg h1, if_pos h2]
      · rw [if_neg hbig]
        have h1 : ¬ ((2 : Int) ^ 63 ≤ -(n : Int)) := by omega
        have h2 : ¬ (-(n : Int) < -(2 ^ 63)) := by omega
        rw [if_neg h1, if_neg h2]
    | false =>
      rw [if_neg (by simp : ¬ (false = true)), if_neg (by simp : ¬ (false = true))]
      by_cases hbig : n ≥ 2 ^ 63
      · rw [if_pos hbig]
        have h1 : (2 : Int) ^ 63 ≤ (n : Int) := by omega
        rw [if_pos h1]
      · rw [if_neg hbig]
        have h1 : ¬ ((2 : Int) ^ 63 ≤ (n : Int)) := by omega
        have h2 : ¬ ((n : Int) < -(2 ^ 63)) := by omega
        rw [if_neg h1, if_neg h2]

/-- On a string the float recognizer rejects, Go's `ParseFloat` (with the
error discarded) returns the literal `0`. -/
theorem goParseFloat_err (s : String) (h : floatSyntaxOK s = false) :
    goParseFloat s = GoFloat64.zero := by
  unfold floatSyntaxOK at h
  unfold goParseFloat
  rcases hrf : readFloat s with ⟨o, n2⟩
  rw [hrf] at h
  cases hsp : goSpecial s.data with
  | some nv =>
    obtain ⟨n, v⟩ := nv
    obtain ⟨vn, vi⟩ := v
    rw [hsp] at h
    simp only [Bool.or_eq_false_iff] at h
    have h1 : ¬ n = s.length := by simpa using h.1
    simp [h1]
  | none =>
    rw [hsp] at h
    simp only [Bool.or_eq_false_iff] at h
    cases o with
    | some r =>
      have h2 : ¬ n2 = s.length := by simpa using h.2
      simp [hrf, h2]
    | none => simp [hrf]

/-- Go's `ParseBool` on the exact token lists: the accepted tokens and the
catch-all `false` on everything outside the true-token list. -/
theorem goParseBool_spec (s : String) :
    (s ∈ (["1", "t", "T", "true", "TRUE", "True"] : List String) →
      goParseBool s = (true, true)) ∧
    (s ∈ (["0", "f", "F", "false", "FALSE", "False"] : List String) →
      goParseBool s = (false, true)) ∧
    (s ∉ (["1", "t", "T", "true", "TRUE", "True"] : List String) →
      (goParseBool s).1 = false) := by
  refine ⟨?_, ?_, ?_⟩
  · intro hm
    simp only [List.mem_cons, List.mem_singleton, List.not_mem_nil, or_false] at hm
    rcases hm with rfl | rfl | rfl | rfl | rfl | rfl <;> rfl
  · intro hm
    simp only [List.mem_cons, List.mem_singleton, List.not_mem_nil, or_false] at hm
    rcases hm with rfl | rfl | rfl | rfl | rfl | rfl <;> rfl
  · intro hm
    have hne : ¬ (s = "1" ∨ s = "t" ∨ s = "T" ∨ s = "true" ∨ s = "TRUE" ∨ s = "True") := by
      intro hc
      exact hm (by simpa [List.mem_cons] using hc)
    unfold goParseBool
    rw [if_neg hne]
    split <;> rfl

/-- C5 counterexample: the claim says every unparseable non-empty string —
including out-of-range numerals — yields `0`; but on the 20-digit numeral
below, which `strconv` rejects with a range error, `GetInt`/`GetInt64`
return the saturated `MaxInt64`, not `0`. -/
theorem c5_out_of_range_cex :
    (storeW.GetString "big").1 = "99999999999999999999" ∧
    (goParseInt64 "99999999999999999999").2 = false ∧
    (storeW.GetInt "big").1 = 2 ^ 63 - 1 ∧
    ¬ (storeW.GetInt "big").1 = 0 ∧
    ¬ (storeW.GetInt64 "big").1 = 0 := by
  refine ⟨by decide, by decide, by decide, by decide, by decide⟩

/-- C5 as amended: on a non-empty string form, the integer getters return
`0` exactly on syntactically invalid numerals; syntactically valid numerals
out of the `int64` range are clamped to `MaxInt64` / `MinInt64` (not `0`),
in-range ones are returned exactly; `GetFloat64` returns `0` on every string
failing Go's float syntax. -/
theorem c5_zero_or_clamp (c : Store) (k : String) :
    ((c.GetString k).1 ≠ "" → intSyntaxOK (c.GetString k).1 = false →
        (c.GetInt k).1 = 0 ∧ (c.GetInt64 k).1 = 0) ∧
    (intSyntaxOK (c.GetString k).1 = true →
        ((2 ^ 63 ≤ intValSpec (c.GetString k).1 →
            (c.GetInt k).1 = 2 ^ 63 - 1 ∧ (c.GetInt64 k).1 = 2 ^ 63 - 1) ∧
         (intValSpec (c.GetString k).1 < -(2 ^ 63) →
            (c.GetInt k).1 = -(2 ^ 63) ∧ (c.GetInt64 k).1 = -(2 ^ 63)) ∧
         (-(2 ^ 63) ≤ intValSpec (c.GetString k).1 → intValSpec (c.GetString k).1 < 2 ^ 63 →
            (c.GetInt k).1 = intValSpec (c.GetString k).1 ∧
            (c.GetInt64 k).1 = intValSpec (c.GetString k).1))) ∧
    ((c.GetString k).1 ≠ "" → floatSyntaxOK (c.GetString k).1 = false →
        (c.GetFloat64 k).1 = GoFloat64.zero) := by
  refine ⟨?_, ?_, ?_⟩
  · intro hne hsyn
    rw [getInt_fst, getInt64_fst, if_neg hne]
    exact ⟨goParseInt64_err _ hsyn, goParseInt64_err _ hsyn⟩
  · intro hsyn
    have hne : (c.GetString k).1 ≠ "" := by
      intro h0; rw [h0] at hsyn; exact absurd hsyn (by decide)
    have hv := goParseInt64_val _ hsyn
    refine ⟨?_, ?_, ?_⟩
    · intro hbig
      rw [getInt_fst, getInt64_fst, if_neg hne, hv, if_pos hbig]
      exact ⟨rfl, rfl⟩
    · intro hlow
      have hx : ¬ (2 ^ 63 ≤ intValSpec (c.GetString k).1) := by omega
      rw [getInt_fst, getInt64_fst, if_neg hne, hv, if_neg hx, if_pos hlow]
      exact ⟨rfl, rfl⟩
    · intro hge hlt
      have hx : ¬ (2 ^ 63 ≤ intValSpec (c.GetString k).1) := by omega
      have hy : ¬ (intValSpec (c.GetString k).1 < -(2 ^ 63)) := by omega
      rw [getInt_fst, getInt64_fst, if_neg hne, hv, if_neg hx, if_neg hy]
      exact ⟨rfl, rfl⟩
  · intro hne hsyn
    rw [getFloat64_fst, if_neg hne]
    exact goParseFloat_err _ hsyn

/-- C5 witness: a syntax error yields `0`, the out-of-range numerals clamp
to the two extremes, an in-range numeral parses exactly, and a malformed
float yields `0`. -/
theorem c5_witness :
    (storeW.GetInt "bad").1 = 0 ∧ (storeW.GetInt64 "bad").1 = 0 ∧
    (storeW.GetInt "big").1 = 2 ^ 63 - 1 ∧
    (storeW.GetInt64 "low").1 = -(2 ^ 63) ∧
    (storeW.GetInt "num").1 = 42 ∧
    (storeW.GetFloat64 "nf").1 = GoFloat64.zero := by
  have hbad := (c5_zero_or_clamp storeW "bad").1 (by decide) (by decide)
  have hbig := ((c5_zero_or_clamp storeW "big").2.1 (by decide)).1 (by decide)
  have hlow := ((c5_zero_or_clamp storeW "low").2.1 (by decide)).2.1 (by decide)
  have hnum := ((c5_zero_or_clamp storeW "num").2.1 (by decide)).2.2 (by decide) (by decide)
  have hnf := (c5_zero_or_clamp storeW "nf").2.2 (by decide) (by decide)
  refine ⟨hbad.1, hbad.2, hbig.1, hlow.2, ?_, hnf⟩
  rw [hnum.1]; decide

/-- C6 counterexample: `"tRuE"` is a casing of `true`, but `ParseBool`
accepts only the twelve exact tokens of its `switch`, so `GetBool` returns
`false` where the claim (case-insensitive tokens) requires `true`. -/
theorem c6_mixed_casing_cex :
    (storeW.GetString "bc").1 = "tRuE" ∧
    "tRuE".data.map Char.toLower = "true".data ∧
    (storeW.GetBool "bc").1 = false := by
  refine ⟨by decide, by decide, by decide⟩

/-- C6 as amended: empty string form gives `false`; the exact tokens
`1,t,T,true,TRUE,True` give `true`; the exact tokens
`0,f,F,false,FALSE,False` give `false`; and every string outside the
true-token list — including every other casing such as `tRuE` — gives
`false`. -/
theorem c6_getbool_tokens (c : Store) (k : String) :
    ((c.GetString k).1 = "" → (c.GetBool k).1 = false) ∧
    ((c.GetString k).1 ∈ (["1", "t", "T", "true", "TRUE", "True"] : List String) →
      (c.GetBool k).1 = true) ∧
    ((c.GetString k).1 ∈ (["0", "f", "F", "false", "FALSE", "False"] : List String) →
      (c.GetBool k).1 = false) ∧
    ((c.GetString k).1 ∉ (["1", "t", "T", "true", "TRUE", "True"] : List String) →
      (c.GetBool k).1 = false) := by
  refine ⟨?_, ?_, ?_, ?_⟩
  · intro h0; rw [getBool_fst, if_pos h0]
  · intro hm
    have hne : (c.GetString k).1 ≠ "" := by
      intro h0; rw [h0] at hm; exact absurd hm (by decide)
    rw [getBool_fst, if_neg hne, (goParseBool_spec _).1 hm]
  · intro hm
    have hne : (c.GetString k).1 ≠ "" := by
      intro h0; rw [h0] at hm; exact absurd hm (by decide)
    rw [getBool_fst, if_neg hne, (goParseBool_spec _).2.1 hm]
  · intro hm
    by_cases h0 : (c.GetString k).1 = ""
    · rw [getBool_fst, if_pos h0]
    · rw [getBool_fst, if_neg h0]
      exact (goParseBool_spec _).2.2 hm

/-- C6 witness: an accepted true token, a string outside the token lists,
and an absent key. -/
theorem c6_witness :
    (storeW.GetBool "bt").1 = true ∧
    (storeW.GetBool "bf").1 = false ∧
    (storeW.GetBool "absent").1 = false := by
  exact ⟨(c6_getbool_tokens storeW "bt").2.1 (by decide),
    (c6_getbool_tokens storeW "bf").2.2.2 (by decide),
    (c6_getbool_tokens storeW "absent").1 (by decide)⟩

/-- C8: on a key absent from both the mapping and the cache, `Get` returns
the absent indicator and every typed getter its zero value, and `Has` is
`false`. -/
theorem c8_absent_key_zero_values (c : Store) (k : String)
    (h1 : c.data k = none) (h2 : c.cache k = none) :
    (c.Get k).1 = GoVal.vnil ∧
    (c.GetString k).1 = "" ∧
    (c.GetInt k).1 = 0 ∧
    (c.GetInt64 k).1 = 0 ∧
    (c.GetFloat64 k).1 = GoFloat64.zero ∧
    (c.GetBool k).1 = false ∧
    (c.GetDuration k).1 = GoDuration.zero ∧
    (c.GetStringSlice k).1 = [] ∧
    c.Has k = false := by
  have hget : (c.Get k).1 = GoVal.vnil := by simp [Store.Get, h1, h2]
  have hgs : (c.GetString k).1 = "" := by rw [getString_fst, hget]
  refine ⟨hget, hgs, ?_, ?_, ?_, ?_, ?_, ?_, ?_⟩
  · rw [getInt_fst, if_pos hgs]
  · rw [getInt64_fst, if_pos hgs]
  · rw [getFloat64_fst, if_pos hgs]
  · rw [getBool_fst, if_pos hgs]
  · rw [getDuration_fst, if_pos hgs]
  · rw [getStringSlice_fst, if_pos hgs]
  · simp [Store.Has, h1]

/-- C8 witness: the empty store and a concrete missing key. -/
theorem c8_witness :
    (store0.Get "missing").1 = GoVal.vnil ∧
    (store0.GetString "missing").1 = "" ∧
    (store0.GetInt "missing").1 = 0 ∧
    (store0.GetInt64 "missing").1 = 0 ∧
    (store0.GetFloat64 "missing").1 = GoFloat64.zero ∧
    (store0.GetBool "missing").1 = false ∧
    (store0.GetDuration "missing").1 = GoDuration.zero ∧
    (store0.GetStringSlice "missing").1 = [] ∧
    store0.Has "missing" = false :=
  c8_absent_key_zero_values store0 "missing" rfl rfl

/-- C10 counterexample: the claim says only `Has` can tell a nil-set key
from an absent one, but `GetStringMap` — a getter — also reveals it: after
`Set("p.x", nil)` the sub-map of `"p"` holds `"x"`, while on the empty store
it does not. -/
theorem c10_getstringmap_distinguishes_cex :
    ((store0.Set "p.x" GoVal.vnil).GetStringMap "p") "x" = some GoVal.vnil ∧
    (store0.GetStringMap "p") "x" = none ∧
    (store0.Set "p.x" GoVal.vnil).Has "p.x" = true ∧
    ((store0.Set "p.x" GoVal.vnil).GetString "p.x").1 = "" := by
  refine ⟨by decide, by decide, by decide, by decide⟩

/-- C10 as amended: a key set to `nil` answers `Has` with `true` while an
absent key answers `false`; through `Get` and every per-key typed getter the
two are indistinguishable (both give the absent indicator / the zero
value). -/
theorem c10_nil_behaves_absent (c : Store) (k : String)
    (h1 : c.data k = none) (h2 : c.cache k = none) :
    (c.Set k GoVal.vnil).Has k = true ∧
    c.Has k = false ∧
    ((c.Set k GoVal.vnil).Get k).1 = GoVal.vnil ∧
    (c.Get k).1 = GoVal.vnil ∧
    ((c.Set k GoVal.vnil).GetString k).1 = "" ∧
    (c.GetString k).1 = "" ∧
    ((c.Set k GoVal.vnil).GetInt k).1 = 0 ∧ (c.GetInt k).1 = 0 ∧
    ((c.Set k GoVal.vnil).GetInt64 k).1 = 0 ∧ (c.GetInt64 k).1 = 0 ∧
    ((c.Set k GoVal.vnil).GetFloat64 k).1 = GoFloat64.zero ∧
    (c.GetFloat64 k).1 = GoFloat64.zero ∧
    ((c.Set k GoVal.vnil).GetBool k).1 = false ∧ (c.GetBool k).1 = false ∧
    ((c.Set k GoVal.vnil).GetDuration k).1 = GoDuration.zero ∧
    (c.GetDuration k).1 = GoDuration.zero ∧
    ((c.Set k GoVal.vnil).GetStringSlice k).1 = [] ∧
    (c.GetStringSlice k).1 = [] := by
  have hget' : ((c.Set k GoVal.vnil).Get k).1 = GoVal.vnil := by
    simp [Store.Get, Store.Set, GoMap.insert, GoMap.erase]
  have hget : (c.Get k).1 = GoVal.vnil := by simp [Store.Get, h1, h2]
  have hgs' : ((c.Set k GoVal.vnil).GetString k).1 = "" := by rw [getString_fst, hget']
  have hgs : (c.GetString k).1 = "" := by rw [getString_fst, hget]
  refine ⟨?_, ?_, hget', hget, hgs', hgs, ?_, ?_, ?_, ?_, ?_, ?_, ?_, ?_, ?_, ?_, ?_, ?_⟩
  · simp [Store.Has, Store.Set, GoMap.insert]
  · simp [Store.Has, h1]
  · rw [getInt_fst, if_pos hgs']
  · rw [getInt_fst, if_pos hgs]
  · rw [getInt64_fst, if_pos hgs']
  · rw [getInt64_fst, if_pos hgs]
  · rw [getFloat64_fst, if_pos hgs']
  · rw [getFloat64_fst, if_pos hgs]
  · rw [getBool_fst, if_pos hgs']
  · rw [getBool_fst, if_pos hgs]
  · rw [getDuration_fst, if_pos hgs']
  · rw [getDuration_fst, if_pos hgs]
  · rw [getStringSlice_fst, if_pos hgs']
  · rw [getStringSlice_fst, if_pos hgs]

/-- C10 witness: the empty store and the key `q`. -/
theorem c10_witness :
    (store0.Set "q" GoVal.vnil).Has "q" = true ∧
    store0.Has "q" = false ∧
    ((store0.Set "q" GoVal.vnil).Get "q").1 = GoVal.vnil ∧
    (store0.Get "q").1 = GoVal.vnil ∧
    ((store0.Set "q" GoVal.vnil).GetString "q").1 = "" ∧
    (store0.GetString "q").1 = "" ∧
    ((store0.Set "q" GoVal.vnil).GetInt "q").1 = 0 ∧ (store0.GetInt "q").1 = 0 ∧
    ((store0.Set "q" GoVal.vnil).GetInt64 "q").1 = 0 ∧ (store0.GetInt64 "q").1 = 0 ∧
    ((store0.Set "q" GoVal.vnil).GetFloat64 "q").1 = GoFloat64.zero ∧
    (store0.GetFloat64 "q").1 = GoFloat64.zero ∧
    ((store0.Set "q" GoVal.vnil).GetBool "q").1 = false ∧
    (store0.GetBool "q").1 = false ∧
    ((store0.Set "q" GoVal.vnil).GetDuration "q").1 = GoDuration.zero ∧
    (store0.GetDuration "q").1 = GoDuration.zero ∧
    ((store0.Set "q" GoVal.vnil).GetStringSlice "q").1 = [] ∧
    (store0.GetStringSlice "q").1 = [] :=
  c10_nil_behaves_absent store0 "q" rfl rfl

/-- Dropping while `p` holds ignores a leading block on which `p` holds
everywhere. -/
theorem dropWhile_append_all (p : Char → Bool) :
    ∀ a l : List Char, (∀ x ∈ a, p x = true) →
      List.dropWhile p (a ++ l) = List.dropWhile p l := by
  intro a
  induction a with
  | nil => intro l _; rfl
  | cons x xs ih =>
    intro l h
    have hx := h x (List.mem_cons_self x xs)
    simp only [List.cons_append, List.dropWhile, hx]
    exact ih l fun y hy => h y (List.mem_cons_of_mem x hy)

/-- Dropping while `p` holds empties a list on which `p` holds everywhere. -/
theorem dropWhile_all (p : Char → Bool) (l : List Char) (h : ∀ x ∈ l, p x = true) :
    List.dropWhile p l = [] := by
  have := dropWhile_append_all p l [] h
  simpa using this

/-- Dropping while `p` holds stops at a head on which `p` fails. -/
theorem dropWhile_head (p : Char → Bool) (x : Char) (xs : List Char) (hx : p x = false) :
    List.dropWhile p (x :: xs) = x :: xs := by
  simp [List.dropWhile, hx]

/-- Dropping while `p` holds removes exactly a leading all-`p` block when the
remainder starts with a character on which `p` fails (or is empty). -/
theorem dropWhile_wrap (p : Char → Bool) (a w : List Char)
    (ha : ∀ x ∈ a, p x = true) (hw : ∀ x, w.head? = some x → p x = false) :
    List.dropWhile p (a ++ w) = w := by
  rw [dropWhile_append_all p a w ha]
  cases w with
  | nil => rfl
  | cons y ys => exact dropWhile_head p y ys (hw y rfl)

/-- A head condition distributes over an append. -/
theorem headNot_append (p : Char → Bool) (l1 l2 : List Char)
    (h1 : ∀ x, l1.head? = some x → p x = false)
    (h2 : ∀ x, l2.head? = some x → p x = false) :
    ∀ x, (l1 ++ l2).head? = some x → p x = false := by
  intro x hx
  cases l1 with
  | nil => exact h2 x (by simpa using hx)
  | cons a l =>
    have hax : a = x := by simpa using hx
    exact hax ▸ h1 a rfl

/-- A head condition follows from an everywhere condition. -/
theorem headNot_all (p : Char → Bool) (l : List Char) (h : ∀ x ∈ l, p x = false) :
    ∀ x, l.head? = some x → p x = false := by
  intro x hx
  cases l with
  | nil => simp at hx
  | cons a as =>
    have hax : a = x := by simpa using hx
    exact hax ▸ h a (List.mem_cons_self a as)

/-- A quote character is not a white-space character. -/
theorem quote_not_space (x : Char) (h : isQuoteC x = true) : isGoSpace x = false := by
  simp only [isQuoteC, Bool.or_eq_true, beq_iff_eq] at h
  rcases h with h | h <;> simp [isGoSpace, h]

/-- A list whose ends avoid white space is unchanged by `TrimSpace`. -/
theorem goTrimSpace_id (l : List Char)
    (hh : ∀ x, l.head? = some x → isGoSpace x = false)
    (hl : ∀ x, l.reverse.head? = some x → isGoSpace x = false) :
    goTrimSpace l = l := by
  unfold goTrimSpace trimBy
  cases l with
  | nil => rfl
  | cons x xs =>
    rw [dropWhile_head isGoSpace x xs (hh x rfl)]
    cases hrev : (x :: xs).reverse with
    | nil => exact absurd hrev (by simp)
    | cons y ys =>
      rw [dropWhile_head isGoSpace y ys (hl y (by rw [hrev]; rfl))]
      rw [← hrev, List.reverse_reverse]

/-- `strings.Trim` with the quote cutset removes every leading and every
trailing quote character — however many, matched or not — and nothing
else, whenever the enclosed text neither starts nor ends with a quote. -/
theorem goTrimQuotes_wrap (w qa qb : List Char)
    (ha : ∀ x ∈ qa, isQuoteC x = true) (hb : ∀ x ∈ qb, isQuoteC x = true)
    (hh : ∀ x, w.head? = some x → isQuoteC x = false)
    (hl : ∀ x, w.reverse.head? = some x → isQuoteC x = false) :
    goTrimQuotes (qa ++ (w ++ qb)) = w := by
  unfold goTrimQuotes trimBy
  cases w with
  | nil =>
    simp only [List.nil_append]
    rw [dropWhile_append_all isQuoteC qa qb ha, dropWhile_all isQuoteC qb hb]
    rfl
  | cons x xs =>
    rw [dropWhile_wrap isQuoteC qa ((x :: xs) ++ qb) ha
      (fun y hy => by
        have hxy : x = y := by simpa using hy
        exact hxy ▸ hh x rfl)]
    rw [List.reverse_append]
    rw [dropWhile_wrap isQuoteC qb.reverse (x :: xs).reverse
      (fun y hy => hb y (List.mem_reverse.mp hy)) hl]
    rw [List.reverse_reverse]

/-- C7 counterexample: for the doubly-quoted value `""x""` the claim
predicts one stripped layer, storing `"x"` with its inner quotes; the code's
`strings.Trim` removes every surrounding quote character, storing plain
`x`. -/
theorem c7_double_quotes_cex :
    parseLine "K=\"\"x\"\"" = some ("K", "x") ∧
    loadLines GoMap.empty ["K=\"\"x\"\""] "K" = some (GoVal.vstr "x") ∧
    ¬ ("x" : String) = "\"x\"" := by
  refine ⟨by decide, by decide, by decide⟩

/-- C7 as amended: the value of a parsed line is everything after the first
`=`, trimmed of surrounding whitespace, and then stripped of every leading
and every trailing quote character (single or double, in any mix and number,
not one matched layer); interior characters — quotes included — are kept.
For any text `w` that neither starts nor ends with a quote or a space,
wrapped in arbitrary runs of quote characters, the line `K=<qa><w><qb>`
stores exactly `w`. -/
theorem c7_value_quote_stripping (w qa qb : List Char)
    (ha : ∀ x ∈ qa, isQuoteC x = true) (hb : ∀ x ∈ qb, isQuoteC x = true)
    (hh : ∀ x, w.head? = some x → isQuoteC x = false ∧ isGoSpace x = false)
    (hl : ∀ x, w.reverse.head? = some x → isQuoteC x = false ∧ isGoSpace x = false) :
    parseLine ⟨'K' :: '=' :: (qa ++ (w ++ qb))⟩ = some ("K", ⟨w⟩) ∧
    goTrimQuotes (qa ++ (w ++ qb)) = w := by
  have hwq := goTrimQuotes_wrap w qa qb ha hb
    (fun x hx => (hh x hx).1) (fun x hx => (hl x hx).1)
  refine ⟨?_, hwq⟩
  have hT : ∀ x, (qa ++ (w ++ qb)).head? = some x → isGoSpace x = false :=
    headNot_append _ qa _
      (headNot_all _ qa fun x hx => quote_not_space x (ha x hx))
      (headNot_append _ w qb (fun x hx => (hh x hx).2)
        (headNot_all _ qb fun x hx => quote_not_space x (hb x hx)))
  have hTrev : ∀ x, (qa ++ (w ++ qb)).reverse.head? = some x → isGoSpace x = false := by
    intro x hx
    rw [List.reverse_append, List.reverse_append] at hx
    exact headNot_append _ (qb.reverse ++ w.reverse) qa.reverse
      (headNot_append _ qb.reverse w.reverse
        (headNot_all _ qb.reverse fun y hy => quote_not_space y (hb y (List.mem_reverse.mp hy)))
        (fun y hy => (hl y hy).2))
      (headNot_all _ qa.reverse fun y hy => quote_not_space y (ha y (List.mem_reverse.mp hy)))
      x hx
  have hts : goTrimSpace (qa ++ (w ++ qb)) = qa ++ (w ++ qb) :=
    goTrimSpace_id _ hT hTrev
  have hLh : ∀ x, ('K' :: '=' :: (qa ++ (w ++ qb))).head? = some x → isGoSpace x = false := by
    intro x hx
    have hKx : 'K' = x := by simpa using hx
    rw [← hKx]; decide
  have hLl : ∀ x, ('K' :: '=' :: (qa ++ (w ++ qb))).reverse.head? = some x →
      isGoSpace x = false := by
    intro x hx
    rw [List.reverse_cons, List.reverse_cons] at hx
    exact headNot_append _ ((qa ++ (w ++ qb)).reverse ++ ['=']) ['K']
      (headNot_append _ (qa ++ (w ++ qb)).reverse ['='] hTrev
        (headNot_all _ ['='] (by decide)))
      (headNot_all _ ['K'] (by decide)) x hx
  have hls : goTrimSpace ('K' :: '=' :: (qa ++ (w ++ qb)))
      = 'K' :: '=' :: (qa ++ (w ++ qb)) :=
    goTrimSpace_id _ hLh hLl
  have hsp : splitKV ('K' :: '=' :: (qa ++ (w ++ qb)))
      = some (['K'], qa ++ (w ++ qb)) := by
    simp [splitKV]
  unfold parseLine
  dsimp only
  rw [hls]
  dsimp only
  rw [if_neg (by decide : ¬ (('K'.toNat == 35) = true))]
  rw [hsp]
  dsimp only
  rw [hts, hwq]
  have hK : (⟨goTrimSpace ['K']⟩ : String) = "K" := by decide
  rw [hK]

/-- C7 witness: the value `x` wrapped left in `"'` and right in `'"`; all
four quote characters are stripped and `x` is stored. -/
theorem c7_witness :
    parseLine ⟨'K' :: '=' :: ([dqC, sqC] ++ ("x".data ++ [sqC, dqC]))⟩
      = some ("K", "x") ∧
    goTrimQuotes ([dqC, sqC] ++ ("x".data ++ [sqC, dqC])) = "x".data := by
  have h := c7_value_quote_stripping "x".data [dqC, sqC] [sqC, dqC]
    (by decide) (by decide)
    (by
      intro x hx
      have hx' : 'x' = x := by simpa using hx
      rw [← hx']
      exact ⟨by decide, by decide⟩)
    (by
      intro x hx
      have hx' : 'x' = x := by simpa using hx
      rw [← hx']
      exact ⟨by decide, by decide⟩)
  exact ⟨h.1, h.2⟩
